import Mathlib

/-!
Shallow embedding of `src/server/src/main.cpp`.

The program has two phases:
1. a startup loop `for (i = 0; i < 5; ++i) { cout << i << endl; sleep(1); }`;
2. an echo loop `while (true) { cin >> a; cout << "a = " << a << endl; }`
   over an uninitialized `char a`.

Standard input is modelled as a `List Char`.  A formatted extraction
`std::cin >> a` for `char a` skips leading whitespace (classic-locale
`isspace`) and consumes exactly one character; it fails (`none`) when no
character remains, leaving the target variable unmodified, which matches
the C++ semantics of the `char` extraction overload.  The indeterminate
initial value of `a` is modelled by a parameter `junk`.  Wall-clock time is
modelled by a logical clock: `sleep s` advances the clock by `s` and every
other operation takes zero time.  The infinite loop is observed through
fuel-indexed finite prefixes of its trace.
-/

/-- Whitespace of the C++ classic locale, as skipped by `std::cin >> (char&)`:
space, tab, newline, vertical tab, form feed, carriage return. -/
def isWs (c : Char) : Bool :=
  c == ' ' || c == '\t' || c == '\n' || c == Char.ofNat 11 || c == Char.ofNat 12 || c == '\r'

/-- One formatted extraction `std::cin >> a` with `char a`: skip whitespace,
then consume one character.  `none` models extraction failure (end of
stream reached before a character is found). -/
def extractChar (s : List Char) : Option (Char × List Char) :=
  match s.dropWhile isWs with
  | [] => none
  | c :: rest => some (c, rest)

/-- The state of the echo loop: the single `char a` variable and the
remaining standard-input stream. -/
structure EchoState where
  a : Char
  stream : List Char
deriving DecidableEq

/-- One iteration body of the echo loop: `cin >> a; cout << "a = " << a << endl;`.
On a successful read `a` is assigned the character read; on a failed read
`a` and the stream are unmodified.  Either way one line is printed. -/
def echoStep (st : EchoState) : EchoState × String :=
  match extractChar st.stream with
  | some (c, rest) => (⟨c, rest⟩, "a = " ++ String.singleton c)
  | none => (st, "a = " ++ String.singleton st.a)

/-- The guard of `while (true)`. -/
def whileGuard : Bool := true

/-- One guarded iteration of the echo loop: `none` would model exiting the
loop and reaching the `return 0` after it. -/
def echoIter (st : EchoState) : Option (EchoState × String) :=
  if whileGuard then some (echoStep st) else none

/-- The first `n` iterations of the echo loop: the lines printed and the
final state.  If an iteration exited the loop, the trace would stop short. -/
def echoRun (st : EchoState) : Nat → List String × EchoState
  | 0 => ([], st)
  | n + 1 =>
    match echoIter st with
    | some (st2, line) =>
      let r := echoRun st2 n
      (line :: r.1, r.2)
    | none => ([], st)

/-- The lines printed by the first `n` echo iterations, starting from the
indeterminate initial value `junk` of `a` and input stream `input`. -/
def echoOutput (junk : Char) (input : List Char) (n : Nat) : List String :=
  (echoRun ⟨junk, input⟩ n).1

/-- The echo-loop state after `n` iterations from `st`. -/
def stepN (st : EchoState) : Nat → EchoState
  | 0 => st
  | n + 1 => (echoStep (stepN st n)).1

/-- The echo-loop state after `n` iterations of the whole program. -/
def echoStateAt (junk : Char) (input : List Char) (n : Nat) : EchoState :=
  stepN ⟨junk, input⟩ n

/-- The line printed by echo iteration `n` (0-based). -/
def echoLineAt (junk : Char) (input : List Char) (n : Nat) : String :=
  (echoStep (echoStateAt junk input n)).2

/-- The `sleep` helper of main.cpp on the logical clock: suspend for
`seconds` seconds, i.e. advance the clock by `seconds`. -/
def sleep (clock seconds : Nat) : Nat := clock + seconds

/-- The startup loop from clock time `clock` and loop index `i`, for `n`
more iterations: each iteration prints the index (timestamped with the
current clock) and then sleeps one second. -/
def startupFrom : Nat → Nat → Nat → List (Nat × String)
  | _, _, 0 => []
  | clock, i, n + 1 => (clock, toString i) :: startupFrom (sleep clock 1) (i + 1) n

/-- The timestamped startup trace: 5 iterations from clock 0 and index 0. -/
def startupTimedTrace : List (Nat × String) := startupFrom 0 0 5

/-- The startup lines, without timestamps. -/
def startupOutput : List String := startupTimedTrace.map Prod.snd

set_option linter.unusedVariables false in
/-- The whole program `main(argc, argv)`: the argument-inspection code is
commented out in the source, so `argc` and `argv` are accepted and unused.
Output is the startup lines followed by the first `n` echo lines. -/
def mainRun (argc : Nat) (argv : List String) (junk : Char) (input : List Char)
    (n : Nat) : List String :=
  startupOutput ++ echoOutput junk input n

/-- Helper for `tokensOf`: accumulate the current token (reversed) while
splitting on whitespace. -/
def tokensAux : List Char → List Char → List (List Char)
  | [], acc => if acc.isEmpty then [] else [acc.reverse]
  | c :: rest, acc =>
    if isWs c then
      if acc.isEmpty then tokensAux rest [] else acc.reverse :: tokensAux rest []
    else tokensAux rest (c :: acc)

/-- The whitespace-delimited tokens of an input stream.  This follows the
spec's wording ("consumed one whitespace-delimited token at a time"); it is
used only to state the per-token reading claim, which the code refutes. -/
def tokensOf (s : List Char) : List (List Char) := tokensAux s []

lemma startupOutput_eq : startupOutput = ["0", "1", "2", "3", "4"] := by decide

lemma echoRun_succ (st : EchoState) (n : Nat) :
    echoRun st (n + 1)
      = ((echoStep st).2 :: (echoRun (echoStep st).1 n).1, (echoRun (echoStep st).1 n).2) := by
  rcases hs : echoStep st with ⟨st2, line⟩
  simp [echoRun, echoIter, whileGuard, hs]

lemma echoStep_none (st : EchoState) (h : extractChar st.stream = none) :
    echoStep st = (st, "a = " ++ String.singleton st.a) := by
  simp [echoStep, h]

lemma echoRun_none (st : EchoState) (h : extractChar st.stream = none) (n : Nat) :
    (echoRun st n).1 = List.replicate n ("a = " ++ String.singleton st.a)
    ∧ (echoRun st n).2 = st := by
  induction n with
  | zero => exact ⟨rfl, rfl⟩
  | succ n ih =>
    rw [echoRun_succ, echoStep_none st h]
    simpa [List.replicate_succ] using ih

lemma extractChar_cons_ws (c : Char) (s : List Char) (h : isWs c = true) :
    extractChar (c :: s) = extractChar s := by
  simp [extractChar, List.dropWhile, h]

lemma extractChar_cons_nonws (c : Char) (s : List Char) (h : isWs c = false) :
    extractChar (c :: s) = some (c, s) := by
  simp [extractChar, List.dropWhile, h]

lemma echoRun_length (st : EchoState) (n : Nat) : (echoRun st n).1.length = n := by
  induction n generalizing st with
  | zero => rfl
  | succ n ih => rw [echoRun_succ]; simp [ih]

lemma echoRun_fst_cons_ws (a c : Char) (s : List Char) (h : isWs c = true) (n : Nat) :
    (echoRun ⟨a, c :: s⟩ n).1 = (echoRun ⟨a, s⟩ n).1 := by
  cases n with
  | zero => rfl
  | succ n =>
    rw [echoRun_succ, echoRun_succ]
    cases hx : extractChar s with
    | some p =>
      obtain ⟨c1, rest⟩ := p
      have h1 : echoStep ⟨a, c :: s⟩ = (⟨c1, rest⟩, "a = " ++ String.singleton c1) := by
        simp [echoStep, extractChar_cons_ws c s h, hx]
      have h2 : echoStep ⟨a, s⟩ = (⟨c1, rest⟩, "a = " ++ String.singleton c1) := by
        simp [echoStep, hx]
      rw [h1, h2]
    | none =>
      have hc : extractChar (c :: s) = none := by rw [extractChar_cons_ws c s h, hx]
      rw [echoStep_none _ hc, echoStep_none _ hx]
      simp only
      rw [(echoRun_none ⟨a, c :: s⟩ hc n).1, (echoRun_none ⟨a, s⟩ hx n).1]

lemma echoRun_filter (a : Char) (s : List Char) :
    (echoRun ⟨a, s⟩ ((s.filter (fun c => !isWs c)).length)).1
      = (s.filter (fun c => !isWs c)).map (fun c => "a = " ++ String.singleton c) := by
  induction s generalizing a with
  | nil => rfl
  | cons c rest ih =>
    cases h : isWs c with
    | true =>
      have hf : (c :: rest).filter (fun x => !isWs x) = rest.filter (fun x => !isWs x) := by
        simp [List.filter, h]
      rw [hf, echoRun_fst_cons_ws a c rest h]
      exact ih a
    | false =>
      have hf : (c :: rest).filter (fun x => !isWs x) = c :: rest.filter (fun x => !isWs x) := by
        simp [List.filter, h]
      have hs : echoStep ⟨a, c :: rest⟩ = (⟨c, rest⟩, "a = " ++ String.singleton c) := by
        simp [echoStep, extractChar_cons_nonws c rest h]
      rw [hf, List.length_cons, echoRun_succ, hs]
      simp only [List.map_cons, List.cons.injEq, true_and]
      exact ih c

lemma echoStep_line_shape (st : EchoState) :
    ∃ c, (echoStep st).2 = "a = " ++ String.singleton c := by
  cases hx : extractChar st.stream with
  | some p => exact ⟨p.1, by simp [echoStep, hx]⟩
  | none => exact ⟨st.a, by simp [echoStep, hx]⟩

lemma echoRun_line_shape (st : EchoState) (n : Nat) :
    ∀ line ∈ (echoRun st n).1, ∃ c, line = "a = " ++ String.singleton c := by
  induction n generalizing st with
  | zero => intro line hl; cases hl
  | succ n ih =>
    rw [echoRun_succ]
    intro line hl
    rcases List.mem_cons.mp hl with h | h
    · exact h ▸ echoStep_line_shape st
    · exact ih (echoStep st).1 line h

lemma echoStep_line_eq_state (st : EchoState) :
    (echoStep st).2 = "a = " ++ String.singleton ((echoStep st).1).a := by
  cases hx : extractChar st.stream with
  | some p => obtain ⟨c, rest⟩ := p; simp [echoStep, hx]
  | none => simp [echoStep, hx]

lemma stepN_shift (st : EchoState) (i : Nat) :
    stepN st (i + 1) = stepN (echoStep st).1 i := by
  induction i with
  | zero => rfl
  | succ i ih => rw [stepN, ih, stepN]

lemma echoRun_fst_eq_range_map (st : EchoState) (n : Nat) :
    (echoRun st n).1 = (List.range n).map (fun i => (echoStep (stepN st i)).2) := by
  induction n generalizing st with
  | zero => rfl
  | succ n ih =>
    rw [echoRun_succ, List.range_succ_eq_map]
    simp only [List.map_cons, List.map_map]
    refine congrArg₂ _ rfl ?_
    rw [ih (echoStep st).1]
    refine List.map_congr_left fun i _ => ?_
    simp [Function.comp, stepN_shift]

lemma filter_nonws_all (s : List Char) :
    (s.filter (fun c => !isWs c)).all (fun c => !isWs c) = true := by
  rw [List.all_eq_true]
  intro c hc
  exact (List.mem_filter.mp hc).2

/-- C1 (counterexample): the input `"ab"` is a single whitespace-delimited
token, yet two echo iterations print `a = a` and then `a = b`; the second
line is not `a = ` followed by the first character of any token, so the
echo loop does not consume one token per read. -/
theorem echo_not_one_line_per_token :
    tokensOf ['a', 'b'] = [['a', 'b']]
    ∧ echoOutput 'x' ['a', 'b'] 2 = ["a = a", "a = b"]
    ∧ ¬ ("a = b" ∈ (tokensOf ['a', 'b']).map (fun t => "a = " ++ String.singleton (t.headD 'x'))) := by
  decide

/-- C1 (amended): each read of the echo loop skips whitespace and consumes
exactly one non-whitespace character, not a whole token; the echoed line is
`a = ` concatenated with the character consumed, one line per
non-whitespace character of the input, in input order. -/
theorem echo_line_per_nonws_char (junk : Char) (input : List Char) :
    echoOutput junk input ((input.filter (fun c => !isWs c)).length)
      = (input.filter (fun c => !isWs c)).map (fun c => "a = " ++ String.singleton c) :=
  echoRun_filter junk input

/-- C2: the startup phase emits exactly the five lines `0`..`4` in order,
and they all precede the echo output, every line of which has the shape
`a = ` followed by one character. -/
theorem startup_five_lines_before_echo (argc : Nat) (argv : List String) (junk : Char)
    (input : List Char) (n : Nat) :
    mainRun argc argv junk input n = ["0", "1", "2", "3", "4"] ++ echoOutput junk input n
    ∧ ∀ line ∈ echoOutput junk input n, ∃ c, line = "a = " ++ String.singleton c := by
  refine ⟨?_, echoRun_line_shape ⟨junk, input⟩ n⟩
  rw [mainRun, startupOutput_eq]

/-- C2 (witness): the decomposition at concrete arguments. -/
theorem startup_five_lines_before_echo_witness :
    mainRun 0 [] 'x' ['q'] 1 = ["0", "1", "2", "3", "4"] ++ echoOutput 'x' ['q'] 1 :=
  (startup_five_lines_before_echo 0 [] 'x' ['q'] 1).1

/-- C3: the echo loop never exits — its guard is the constant `true`, so
every iteration produces another iteration (`echoIter` is never `none`,
i.e. the `return 0` after the loop is unreachable) and the trace keeps
growing: after `n` iterations exactly `n` echo lines have been printed,
for every `n`, whatever the input stream. -/
theorem echo_loop_never_terminates :
    (∀ st : EchoState, (echoIter st).isSome = true)
    ∧ ∀ (junk : Char) (input : List Char) (n : Nat), (echoOutput junk input n).length = n :=
  ⟨fun _ => rfl, fun junk input n => echoRun_length ⟨junk, input⟩ n⟩

/-- C4: the output is independent of the command-line arguments: two runs
with the same standard input but arbitrary different `argc`/`argv` produce
identical output, since `main` never reads its parameters (the inspection
code is commented out). -/
theorem output_independent_of_args (a1 : Nat) (v1 : List String) (a2 : Nat)
    (v2 : List String) (junk : Char) (input : List Char) (n : Nat) :
    mainRun a1 v1 junk input n = mainRun a2 v2 junk input n := rfl

/-- C5: every echo line prints exactly the current value of the state
variable `a` right after that iteration's read (the last value assigned by
a read, or the initial junk if no read ever succeeded), and the printed
trace is exactly the sequence of those per-iteration lines. -/
theorem echo_line_shows_state_var (junk : Char) (input : List Char) (n : Nat) :
    echoLineAt junk input n = "a = " ++ String.singleton (echoStateAt junk input (n + 1)).a
    ∧ echoOutput junk input n = (List.range n).map (echoLineAt junk input) := by
  constructor
  · have h := echoStep_line_eq_state (echoStateAt junk input n)
    rw [echoLineAt, h]
    rfl
  · rw [echoOutput, echoRun_fst_eq_range_map]
    rfl

/-- C6: the echo loop has no error handling: the loop body is total and
prints a line of the shape `a = <character>` from every state, whether the
read succeeds or fails, and each of the `n` iterations contributes exactly
one line. -/
theorem echo_no_error_handling (junk : Char) (input : List Char) (n : Nat) :
    (echoOutput junk input n).length = n
    ∧ ∀ st : EchoState, ∃ c, (echoStep st).2 = "a = " ++ String.singleton c :=
  ⟨echoRun_length ⟨junk, input⟩ n, echoStep_line_shape⟩

/-- C7: on the logical clock, where `sleep s` is the only operation that
advances time (by `s`), consecutive startup lines are stamped exactly one
second apart, because each startup iteration sleeps one second after
printing. -/
theorem startup_interval_is_sleep_second :
    (∀ t : Nat, sleep t 1 = t + 1)
    ∧ ∀ i : Fin 4, (startupTimedTrace.getD (i.1 + 1) (0, "")).1
        = (startupTimedTrace.getD i.1 (0, "")).1 + 1 :=
  ⟨fun _ => rfl, by decide⟩

/-- C8: each extraction skips whitespace and consumes exactly one
non-whitespace character: an input with `N` non-whitespace characters
produces, over the first `N` iterations, exactly `N` echo lines, one per
non-whitespace character in input order, and every echoed character is a
non-whitespace character of the input. -/
theorem echo_one_line_per_nonws (junk : Char) (input : List Char) :
    echoOutput junk input ((input.filter (fun c => !isWs c)).length)
      = (input.filter (fun c => !isWs c)).map (fun c => "a = " ++ String.singleton c)
    ∧ (input.filter (fun c => !isWs c)).all (fun c => !isWs c) = true :=
  ⟨echoRun_filter junk input, filter_nonws_all input⟩

/-- C9: once extraction fails (the stream holds no further non-whitespace
character), the loop spins forever: every subsequent iteration fails,
leaves `a` and the stream unmodified, and re-prints `a = ` followed by the
last value of `a`, for every number of further iterations `m`. -/
theorem echo_spins_after_failure (st : EchoState)
    (h : extractChar st.stream = none) (m : Nat) :
    (echoRun st m).1 = List.replicate m ("a = " ++ String.singleton st.a)
    ∧ (echoRun st m).2 = st :=
  echoRun_none st h m

/-- C9 (witness): on the empty (closed) stream with last value `z`, three
more iterations print `a = z` three times and do not change the state. -/
theorem echo_spins_after_failure_witness :
    (echoRun ⟨'z', []⟩ 3).1 = List.replicate 3 ("a = " ++ String.singleton 'z')
    ∧ (echoRun ⟨'z', []⟩ 3).2 = ⟨'z', []⟩ :=
  echo_spins_after_failure ⟨'z', []⟩ rfl 3

/-- C10: `a` is declared without an initializer; if the very first
extraction fails, the first echo line prints the indeterminate initial
value: it equals `a = ` followed by whatever `junk` the variable happened
to hold, and distinct junk values produce distinct first lines, so the
output does not come from the input. -/
theorem first_echo_prints_uninitialized (input : List Char)
    (h : extractChar input = none) :
    (∀ junk : Char, echoOutput junk input 1 = ["a = " ++ String.singleton junk])
    ∧ echoOutput 'A' input 1 ≠ echoOutput 'B' input 1 := by
  have hline : ∀ junk : Char, echoOutput junk input 1 = ["a = " ++ String.singleton junk] := by
    intro junk
    have hs := echoStep_none ⟨junk, input⟩ h
    rw [echoOutput, echoRun_succ, hs]
    rfl
  refine ⟨hline, ?_⟩
  rw [hline 'A', hline 'B']
  decide

/-- C10 (witness): on the empty stream, initial values `A` and `B` give
different first echo lines. -/
theorem first_echo_prints_uninitialized_witness :
    echoOutput 'A' [] 1 ≠ echoOutput 'B' [] 1 :=
  (first_echo_prints_uninitialized [] rfl).2
